import Mathlib

/-!
Verification of the guangyang compare pipeline (Go backend) against its
specification. The Go sources are shallowly embedded: pure functions become
Lean functions over `String` / `List` / `Int` / `ℚ`; the job store and its
mutators become explicit record-transformers; machine integers are `Int`/`Nat`
with explicit bounds where overflow matters.

Modelling conventions, used throughout:
* Go `string` is Lean `String`. Go indexes bytes; every byte-level loop
  embedded here only ever accepts ASCII bytes (`+ - . 0-9`), and in valid
  UTF-8 no byte of a multi-byte rune is ASCII, so the byte loops and the
  corresponding `List Char` loops accept exactly the same strings.
* Go `sort.Strings` sorts by UTF-8 byte order, which coincides with
  code-point lexicographic order (UTF-8 preserves code-point order), i.e.
  with `String`'s linear order in Lean.
* timestamps (`time.Time`) are abstract `Nat` ticks; `float64 AmountYuan`
  is modelled as `ℚ` (every value the program stores in it is `feeFen/100`
  with `feeFen : Int`, exactly representable both as `float64` and `ℚ`).
-/

namespace GY

/-! ### Go string primitives -/

/-- Character-level model of Go `unicode.IsSpace` (the Unicode White_Space
property, which is exactly what `strings.TrimSpace` trims). -/
def goIsSpace (c : Char) : Bool :=
  c = ' ' ∨ c = '\t' ∨ c = '\n' ∨ c = '\x0b' ∨ c = '\x0c' ∨ c = '\r' ∨
  c.toNat = 0x85 ∨ c.toNat = 0xA0 ∨ c.toNat = 0x1680 ∨
  (0x2000 ≤ c.toNat ∧ c.toNat ≤ 0x200A) ∨ c.toNat = 0x2028 ∨ c.toNat = 0x2029 ∨
  c.toNat = 0x202F ∨ c.toNat = 0x205F ∨ c.toNat = 0x3000

/-- Go `strings.TrimSpace`. -/
def goTrimSpace (s : String) : String :=
  String.mk (((s.data.dropWhile goIsSpace).reverse.dropWhile goIsSpace).reverse)

/-- Go `strings.ToLower`, restricted to ASCII case mapping. The sources only
compare lowered strings against the ASCII literals "nan"/"nat"/"none" and the
key-column keywords; no non-ASCII character lowercases to an ASCII letter, so
the restriction does not change any comparison performed by the program. -/
def goToLower (s : String) : String :=
  String.mk (s.data.map (fun c => if 'A' ≤ c ∧ c ≤ 'Z' then Char.ofNat (c.toNat + 32) else c))

/-- Go `strings.ToUpper`, restricted to ASCII (used only against "SUCCESS"). -/
def goToUpper (s : String) : String :=
  String.mk (s.data.map (fun c => if 'a' ≤ c ∧ c ≤ 'z' then Char.ofNat (c.toNat - 32) else c))

def isAsciiDigit (c : Char) : Bool := '0' ≤ c ∧ c ≤ '9'

/-- Prefix test on character lists (helper for Go `strings.Contains`). -/
def charsHavePre : List Char → List Char → Bool
  | [], _ => true
  | _ :: _, [] => false
  | a :: as, b :: bs => a = b && charsHavePre as bs

/-- Substring test on character lists (helper for Go `strings.Contains`). -/
def charsHaveSub (sub : List Char) : List Char → Bool
  | [] => sub.isEmpty
  | c :: rest => charsHavePre sub (c :: rest) || charsHaveSub sub rest

/-- Go `strings.Contains s sub` (byte-level substring search; for valid UTF-8
needle and haystack this coincides with character-level search, since UTF-8 is
self-synchronizing). -/
def goContains (s sub : String) : Bool := charsHaveSub sub.data s.data

/-! ### excelcmp/normalize.go -/

/-- Numeric value of a digit run (most significant first). -/
def digitsVal (ds : List Char) : Nat := ds.foldl (fun a c => a * 10 + (c.toNat - 48)) 0

/-- Body of `looksLikeIntegerFloatString` after the optional sign: Go counts a
nonempty digit run, requires a '.', then a nonempty run of '0' reaching the
end of the string. -/
def intFloatTail (cs : List Char) : Bool :=
  let ds := cs.takeWhile isAsciiDigit
  let rest := cs.dropWhile isAsciiDigit
  if ds.isEmpty then false
  else if rest.head? = some '.' then
    !(rest.tail.takeWhile (fun x => x = '0')).isEmpty &&
      (rest.tail.dropWhile (fun x => x = '0')).isEmpty
  else false

/-- normalize.go `looksLikeIntegerFloatString`: accepts `[+-]?\d+\.0+` and
nothing else (in particular a plain integer string is rejected, keeping "001"
verbatim). -/
def looksLikeIntegerFloatString (s : String) : Bool :=
  match s.data with
  | [] => false
  | c :: rest =>
    if c = '+' ∨ c = '-' then
      if rest.isEmpty then false else intFloatTail rest
    else intFloatTail (c :: rest)

/-- Exact integer value of a string accepted by `looksLikeIntegerFloatString`
(sign times the leading digit run; the fractional part is all zeros). -/
def intFloatValue (s : String) : Int :=
  match s.data with
  | [] => 0
  | c :: rest =>
    if c = '-' then -(digitsVal (rest.takeWhile isAsciiDigit) : Int)
    else if c = '+' then (digitsVal (rest.takeWhile isAsciiDigit) : Int)
    else (digitsVal ((c :: rest).takeWhile isAsciiDigit) : Int)

/-- normalize.go `normalizeScalarForCompare`.

The Go code runs `strconv.ParseFloat` and compares `float64(int64(f))` with
`f`; here this is modelled with exact integers, which is faithful because:
on the accepted pattern the mathematical value `n` is an integer; every
integer of magnitude at most `9e15 < 2^53` is exactly representable as a
`float64`, so for `|n| ≤ 9e15` the parse is exact, the truncation test always
succeeds and `strconv.FormatInt` renders the canonical decimal of `n`; and
for `|n| > 9e15` the parsed float also has magnitude above `9e15` (rounding
to nearest cannot cross below it, `9e15` being itself representable), so the
Go code returns the trimmed string unchanged, as modelled. -/
def normalizeScalarForCompare (v : String) : String :=
  let s := goTrimSpace v
  if s = "" then ""
  else
    let ls := goToLower s
    if ls = "nan" ∨ ls = "nat" ∨ ls = "none" then ""
    else if looksLikeIntegerFloatString s then
      let n := intFloatValue s
      if 9000000000000000 < n ∨ n < -9000000000000000 then s
      else toString n
    else s

/-! ### Spec-side model of the normalization claim (C2)

`specIntFloat` is written from the specification's words: the regular
expression `^[+-]?\d+(\.0+)$` together with the numeric value it denotes.
It is deliberately a separate definition from the port of the Go matcher. -/

/-- Unsigned part of the claim's regex `\d+(\.0+)`: a nonempty digit run, a
dot, and a nonempty all-zero tail. -/
def intFloatCore (cs : List Char) : Option Int :=
  let ds := cs.takeWhile isAsciiDigit
  let rest := cs.dropWhile isAsciiDigit
  if ds ≠ [] ∧ rest.head? = some '.' ∧ rest.tail ≠ [] ∧ rest.tail.all (fun c => c = '0')
  then some (digitsVal ds) else none

/-- Claim-side matcher for `^[+-]?\d+(\.0+)$`, returning the integer value of
the match. -/
def specIntFloat (s : String) : Option Int :=
  match s.data with
  | [] => none
  | c :: rest =>
    if c = '-' then (intFloatCore rest).map (fun n => -n)
    else if c = '+' then intFloatCore rest
    else intFloatCore (c :: rest)

/-- Normalization as the specification describes it: empty/nan/nat/none to
the empty string; in-range `^[+-]?\d+(\.0+)$` to the canonical integer form
(on this pattern the parsed floating value is the integer `n` itself, so the
spec's truncation condition is automatic); anything else trimmed and kept. -/
def specNormalize (v : String) : String :=
  let s := goTrimSpace v
  if s = "" then ""
  else if goToLower s = "nan" ∨ goToLower s = "nat" ∨ goToLower s = "none" then ""
  else
    match specIntFloat s with
    | some n => if -9000000000000000 ≤ n ∧ n ≤ 9000000000000000 then toString n else s
    | none => s

/-! Bridging lemmas for C2. -/

theorem isEmpty_true_iff {l : List Char} : l.isEmpty = true ↔ l = [] := by
  cases l <;> simp

theorem isEmpty_false_iff {l : List Char} : l.isEmpty = false ↔ l ≠ [] := by
  cases l <;> simp

theorem dropWhile_eq_nil_iff_all {p : Char → Bool} (l : List Char) :
    l.dropWhile p = [] ↔ l.all p := by
  induction l with
  | nil => simp
  | cons c cs ih =>
    by_cases h : p c
    · simp [List.dropWhile_cons, h, ih]
    · simp [List.dropWhile_cons, h]

theorem takeWhile_ne_nil_of_all {p : Char → Bool} (l : List Char)
    (hne : l ≠ []) (hall : l.all p) : (l.takeWhile p).isEmpty = false := by
  cases l with
  | nil => exact absurd rfl hne
  | cons c cs =>
    simp only [List.all_cons, Bool.and_eq_true] at hall
    simp [List.takeWhile_cons, hall.1]

theorem zeros_cond (zs : List Char) :
    (!(zs.takeWhile (fun x => x = '0')).isEmpty && (zs.dropWhile (fun x => x = '0')).isEmpty) = true
      ↔ (zs ≠ [] ∧ zs.all (fun x => x = '0') = true) := by
  constructor
  · rintro h
    rw [Bool.and_eq_true, Bool.not_eq_true', isEmpty_false_iff, isEmpty_true_iff] at h
    refine ⟨?_, (dropWhile_eq_nil_iff_all zs).mp h.2⟩
    intro hnil
    subst hnil
    exact h.1 rfl
  · rintro ⟨hne, hall⟩
    rw [Bool.and_eq_true, Bool.not_eq_true', isEmpty_false_iff, isEmpty_true_iff]
    exact ⟨isEmpty_false_iff.mp (takeWhile_ne_nil_of_all zs hne hall),
      (dropWhile_eq_nil_iff_all zs).mpr hall⟩

theorem intFloatCore_eq (cs : List Char) :
    intFloatCore cs =
      if intFloatTail cs then some ((digitsVal (cs.takeWhile isAsciiDigit) : Int)) else none := by
  simp only [intFloatCore, intFloatTail]
  by_cases hds : cs.takeWhile isAsciiDigit = []
  · simp [hds, isEmpty_true_iff.mpr hds]
  · have hdsb : (cs.takeWhile isAsciiDigit).isEmpty = false := isEmpty_false_iff.mpr hds
    by_cases hdot : (cs.dropWhile isAsciiDigit).head? = some '.'
    · by_cases hz2 : (cs.dropWhile isAsciiDigit).tail ≠ [] ∧
          ((cs.dropWhile isAsciiDigit).tail.all fun c => c = '0') = true
      · rw [if_pos ⟨hds, hdot, hz2.1, hz2.2⟩]
        simp [hdsb, hdot, (zeros_cond _).mpr hz2]
      · rw [if_neg (fun h => hz2 ⟨h.2.2.1, h.2.2.2⟩)]
        have hno : ¬((!((cs.dropWhile isAsciiDigit).tail.takeWhile fun x => x = '0').isEmpty &&
            ((cs.dropWhile isAsciiDigit).tail.dropWhile fun x => x = '0').isEmpty) = true) :=
          fun h => hz2 ((zeros_cond _).mp h)
        simp [hdsb, hdot, hno]
    · rw [if_neg (fun h => hdot h.2.1)]
      simp [hdsb, hdot]

theorem specIntFloat_eq (s : String) :
    specIntFloat s = if looksLikeIntegerFloatString s then some (intFloatValue s) else none := by
  unfold specIntFloat looksLikeIntegerFloatString intFloatValue
  rcases s.data with _ | ⟨c, rest⟩
  · simp
  · by_cases hm : c = '-'
    · subst hm
      rcases rest with _ | ⟨d, ds⟩
      · simp [intFloatCore]
      · simp only [if_pos (Or.inr rfl), List.isEmpty_cons, if_pos rfl]
        rw [intFloatCore_eq]
        by_cases ht : intFloatTail (d :: ds) <;> simp [ht]
    · by_cases hp : c = '+'
      · subst hp
        rcases rest with _ | ⟨d, ds⟩
        · simp [intFloatCore]
        · simp only [if_pos (Or.inl rfl)]
          rw [intFloatCore_eq]
          have : ¬('+' = '-') := by decide
          simp only [if_neg this, List.isEmpty_cons, if_pos rfl, Bool.false_eq_true, if_false]
          by_cases ht : intFloatTail (d :: ds) <;> simp [ht]
      · have hno : ¬(c = '+' ∨ c = '-') := by
          rintro (h | h) <;> [exact hp h; exact hm h]
        simp only [if_neg hno, if_neg hm, if_neg hp]
        rw [intFloatCore_eq]

/-- C2: scalar normalization returns the empty string on blank / nan / nat /
none inputs (case-insensitively); rewrites strings matching
`^[+-]?\d+(\.0+)$` with `|value| ≤ 9e15` to the canonical integer form; and
returns the trimmed string unchanged otherwise, so that "1.00" becomes "1",
"1.0" compares equal to "1", while the pure integer string "001" is kept
verbatim and stays different from "1". -/
theorem normalize_matches_spec :
    (∀ v, normalizeScalarForCompare v = specNormalize v) ∧
    normalizeScalarForCompare "1.00" = "1" ∧
    normalizeScalarForCompare "1.0" = normalizeScalarForCompare "1" ∧
    normalizeScalarForCompare "001" = "001" ∧
    normalizeScalarForCompare "001" ≠ normalizeScalarForCompare "1" := by
  refine ⟨fun v => ?_, by decide, by decide, by decide, by decide⟩
  unfold normalizeScalarForCompare specNormalize
  by_cases h0 : goTrimSpace v = ""
  · simp [h0]
  · simp only [if_neg h0]
    by_cases h1 : goToLower (goTrimSpace v) = "nan" ∨ goToLower (goTrimSpace v) = "nat" ∨
        goToLower (goTrimSpace v) = "none"
    · simp [h1]
    · simp only [if_neg h1]
      rw [specIntFloat_eq]
      by_cases h2 : looksLikeIntegerFloatString (goTrimSpace v)
      · simp only [h2, if_true, if_pos]
        by_cases h3 : 9000000000000000 < intFloatValue (goTrimSpace v) ∨
            intFloatValue (goTrimSpace v) < -9000000000000000
        · rw [if_pos h3, if_neg (by omega)]
        · rw [if_neg h3, if_pos (by omega)]
      · simp [h2]

/-! ### excelcmp key-column inference (GuessPrimaryKeyColumn) -/

/-- excelcmp `Table` (readxlsx.go): header row plus data rows. -/
structure Table where
  Headers : List String
  Rows : List (List String)
deriving DecidableEq

/-- normalize.go `isIntegerLikeString`: optional sign, then only digits. -/
def isIntegerLikeString (s : String) : Bool :=
  match s.data with
  | [] => false
  | c :: rest =>
    let body := if c = '-' ∨ c = '+' then rest else c :: rest
    !body.isEmpty && body.all isAsciiDigit

/-- Exponent part of a decimal literal: optional sign, nonempty digit run. -/
def parseExpPart (cs : List Char) : Option Int :=
  match cs with
  | [] => none
  | c :: rest =>
    let (sign, body) : Int × List Char :=
      if c = '-' then (-1, rest) else if c = '+' then (1, rest) else (1, c :: rest)
    if !body.isEmpty && body.all isAsciiDigit then some (sign * (digitsVal body : Int)) else none

/-- Decimal-literal reading of Go `strconv.ParseFloat`, with the exact
rational value: `[+-]?(\d+(\.\d*)?|\.\d+)([eE][+-]?\d+)?`. Exotic inputs the
Go parser also accepts (hex floats, underscore separators, inf/nan words) are
mapped to `none`; the program only feeds spreadsheet cell texts through this
path and only consumes the integer-valuedness verdict, for which the exact
rational value is used below. -/
def parseDecimalQ (s : String) : Option ℚ :=
  match s.data with
  | [] => none
  | c0 :: rest0 =>
    let (sign, body) : ℚ × List Char :=
      if c0 = '-' then (-1, rest0) else if c0 = '+' then (1, rest0) else (1, c0 :: rest0)
    let ip := body.takeWhile isAsciiDigit
    let r1 := body.dropWhile isAsciiDigit
    match r1 with
    | [] => if ip.isEmpty then none else some (sign * (digitsVal ip : ℚ))
    | d :: r2 =>
      if d = '.' then
        let fp := r2.takeWhile isAsciiDigit
        let r3 := r2.dropWhile isAsciiDigit
        if ip.isEmpty && fp.isEmpty then none
        else
          let mant : ℚ := (digitsVal ip : ℚ) + (digitsVal fp : ℚ) / ((10 : ℚ) ^ fp.length)
          match r3 with
          | [] => some (sign * mant)
          | e :: r4 =>
            if e = 'e' ∨ e = 'E' then (parseExpPart r4).map (fun ex => sign * mant * (10 : ℚ) ^ ex)
            else none
      else if d = 'e' ∨ d = 'E' then
        if ip.isEmpty then none
        else (parseExpPart r2).map (fun ex => sign * (digitsVal ip : ℚ) * (10 : ℚ) ^ ex)
      else none

/-- normalize.go `isFiniteIntegerFloatString`: parses as a float, has
magnitude at most `9e15`, and equals its integer truncation. Modelled on the
exact rational value (see `parseDecimalQ`); within `|x| ≤ 9e15 < 2^53` a
`float64` parse is exact on integer values, matching the Go check. -/
def isFiniteIntegerFloatString (s : String) : Bool :=
  match parseDecimalQ s with
  | none => false
  | some q => decide (-(9000000000000000 : ℚ) ≤ q ∧ q ≤ 9000000000000000 ∧ q.den = 1)

/-- Character-level stand-in for Go `unicode.IsLetter`/`IsDigit` in
`isAlnumUnicode`: ASCII alphanumerics, CJK unified ideographs, and the
general "letter-ish" planes actually reachable from spreadsheet cells. The
full Unicode category tables are not reproduced; every value this predicate
is applied to in the claims below is ASCII or CJK. -/
def isLetterOrDigitChar (c : Char) : Bool :=
  isAsciiDigit c ∨ ('a' ≤ c ∧ c ≤ 'z') ∨ ('A' ≤ c ∧ c ≤ 'Z') ∨
  (0x4E00 ≤ c.toNat ∧ c.toNat ≤ 0x9FFF) ∨ (0x3400 ≤ c.toNat ∧ c.toNat ≤ 0x4DBF)

/-- normalize.go `isAlnumUnicode`: nonempty, all letters or digits. -/
def isAlnumUnicode (s : String) : Bool :=
  !s.data.isEmpty && s.data.all isLetterOrDigitChar

/-- part_007 `primaryKeyCandidates`. -/
def primaryKeyCandidates : List String :=
  ["id", "编号", "编码", "资产编号", "资产编码", "序号", "资产号", "code", "no", "序列号"]

/-- part_007 GuessPrimaryKeyColumn: the per-value "pkish" test. -/
def pkish (v : String) : Bool :=
  isIntegerLikeString v || isFiniteIntegerFloatString v || isAlnumUnicode v

/-- Sample gathering for one column: the first `n` rows must each have a cell
at `colIdx` whose trimmed value is nonempty; otherwise the column is
disqualified (`none`). Mirrors the `hasNull` loop of GuessPrimaryKeyColumn. -/
def sampleColumn (colIdx : Nat) : List (List String) → Nat → Option (List String)
  | _, 0 => some []
  | [], _ + 1 => some []
  | row :: rest, n + 1 =>
    match row.get? colIdx with
    | none => none
    | some v0 =>
      let v := goTrimSpace v0
      if v = "" then none else (sampleColumn colIdx rest n).map (v :: ·)

/-- Qualification of a column: at least one sampled row, no missing or blank
cell, and no duplicate among the trimmed sample values. Returns the sample. -/
def colQualifies (tbl : Table) (colIdx : Nat) (checkRows : Nat) : Option (List String) :=
  let n := min checkRows tbl.Rows.length
  if n = 0 then none
  else
    match sampleColumn colIdx tbl.Rows n with
    | none => none
    | some vs => if vs.Nodup then some vs else none

/-- part_007 scoring: Go adds 10 for EVERY keyword contained in the lowered
header (not 10 once), plus 5 when all sampled values are pkish. -/
def colScore (name : String) (values : List String) : Nat :=
  10 * (primaryKeyCandidates.countP (fun kw => goContains (goToLower name) (goToLower kw))) +
  (if values.all pkish then 5 else 0)

/-- The best-column loop of GuessPrimaryKeyColumn: keep the first column whose
score strictly exceeds the best so far (`bestScore` starts at `-1`). -/
def guessGo (tbl : Table) (checkRows : Nat) :
    List (Nat × String) → String → Int → String × Int
  | [], bc, bs => (bc, bs)
  | (idx, name) :: rest, bc, bs =>
    match colQualifies tbl idx checkRows with
    | none => guessGo tbl checkRows rest bc bs
    | some vs =>
      let score : Int := colScore name vs
      if bs < score then guessGo tbl checkRows rest name score
      else guessGo tbl checkRows rest bc bs

/-- Go `checkRows <= 0` defaulting (the Go `int` argument is a `Nat` here,
with 0 standing for the nonpositive case). -/
def effCheckRows (n : Nat) : Nat := if n = 0 then 5 else n

/-- part_007 `GuessPrimaryKeyColumn`. -/
def GuessPrimaryKeyColumn (tbl : Table) (checkRows0 : Nat) : Option String :=
  if tbl.Headers = [] then none
  else
    let r := guessGo tbl (effCheckRows checkRows0) tbl.Headers.enum "" (-1)
    if r.1 = "" then none else some r.1

/-! Claim-side scoring for C3, written from the claim's words: "+10 if the
header (case-insensitively) contains ANY keyword of the closed set" — i.e. a
single bonus of 10, not one per keyword. -/

def claimScore (name : String) (values : List String) : Nat :=
  (if primaryKeyCandidates.any (fun kw => goContains (goToLower name) (goToLower kw))
   then 10 else 0) +
  (if values.all pkish then 5 else 0)

def claimGuessGo (tbl : Table) (checkRows : Nat) :
    List (Nat × String) → String → Int → String × Int
  | [], bc, bs => (bc, bs)
  | (idx, name) :: rest, bc, bs =>
    match colQualifies tbl idx checkRows with
    | none => claimGuessGo tbl checkRows rest bc bs
    | some vs =>
      let score : Int := claimScore name vs
      if bs < score then claimGuessGo tbl checkRows rest name score
      else claimGuessGo tbl checkRows rest bc bs

/-- Key-column choice as claim C3 describes it: highest claim-score wins,
earliest column on ties, disqualification as in the code. -/
def claimGuess (tbl : Table) (checkRows0 : Nat) : Option String :=
  if tbl.Headers = [] then none
  else
    let r := claimGuessGo tbl (effCheckRows checkRows0) tbl.Headers.enum "" (-1)
    if r.1 = "" then none else some r.1

/-- Two-column table on which code and claim disagree: the header "资产编号"
contains two keywords ("编号" and "资产编号"), the header "id" only one. -/
def cexTable : Table :=
  { Headers := ["id", "资产编号"],
    Rows := [["1", "2"], ["2", "3"]] }

/-! ### domain.CompareJob and the store mutators

Every state transition in the pipeline is expressed as a mutator passed to
`store.Update(id, fn)`; the store applies `fn` to the current record
atomically. Each closure passed to Update in the sources is embedded below as
a pure `CompareJob → CompareJob`, with the values it captures (timestamps,
OSS keys, messages, fee) as extra parameters. -/

inductive CompareJobStatus
  | processing
  | awaitingPayment
  | ready
  | failed
  | cancelled
deriving DecidableEq

/-- domain.CompareJob (part_009 second section). `CreatedAt`/`PaidAt`/
`CancelledAt` are abstract ticks; `AmountYuan : ℚ` models the `float64`. -/
structure CompareJob where
  ID : String
  Status : CompareJobStatus
  CreatedAt : Nat
  File1Path : String
  File2Path : String
  File1OSSKey : String
  File2OSSKey : String
  File1Name : String
  File2Name : String
  ResultPath : String
  ResultOSSKey : String
  AmountYuan : ℚ
  CodeURL : String
  Paid : Bool
  PaidAt : Option Nat
  CancelledAt : Option Nat
  Error : String
deriving DecidableEq

/-- wechat/notify.go and compare/service.go `hasResult`. -/
def hasResult (j : CompareJob) : Bool :=
  !(goTrimSpace j.ResultOSSKey) = "" || !(goTrimSpace j.ResultPath) = ""

/-- notify.go lines 129-148: the SUCCESS-notification update mutator. -/
def notifyUpdate (now : Nat) (j : CompareJob) : CompareJob :=
  if j.Paid then j
  else
    let j1 := { j with Paid := true, PaidAt := some now }
    if hasResult j1 ∧ (j1.Status = .awaitingPayment ∨ j1.Status = .processing) then
      { j1 with Status := .ready, AmountYuan := 0, CodeURL := "" }
    else if j1.Status = .awaitingPayment then
      { j1 with Status := .processing }
    else j1

/-- service.go handleCancelJob lines 337-345: the cancel mutator. -/
def cancelUpdate (now : Nat) (j : CompareJob) : CompareJob :=
  if j.Paid then j
  else { j with Status := .cancelled, CancelledAt := some now }

/-- part_001 compute Worker.Process lines 156-162: mark-processing mutator. -/
def computeMarkProcessing (j : CompareJob) : CompareJob :=
  if j.Status = .cancelled then j
  else { j with Status := .processing, Error := "" }

/-- part_001 compute Worker.Process lines 204-210: persist-result mutator. -/
def computePersistResult (ossKey : String) (j : CompareJob) : CompareJob :=
  if j.Status = .cancelled then j
  else { j with ResultOSSKey := ossKey, ResultPath := "" }

/-- part_001 compute Worker.fail lines 240-243: unconditional failure write. -/
def computeFail (msg : String) (j : CompareJob) : CompareJob :=
  { j with Status := .failed, Error := msg }

/-- part_006 paygate Worker.Process lines 105-115: release when already paid. -/
def paygateReleasePaid (ossKey : String) (j : CompareJob) : CompareJob :=
  if j.Status = .cancelled then j
  else { j with Status := .ready, ResultOSSKey := ossKey, ResultPath := "",
                AmountYuan := 0, CodeURL := "", Error := "" }

/-- part_006 paygate Worker.Process lines 122-136: free-fee release. -/
def paygateFreeRelease (now : Nat) (ossKey : String) (j : CompareJob) : CompareJob :=
  if j.Status = .cancelled then j
  else
    let j1 := if j.Paid then j else { j with Paid := true, PaidAt := some now }
    { j1 with Status := .ready, ResultOSSKey := ossKey, ResultPath := "",
              AmountYuan := 0, CodeURL := "", Error := "" }

/-- part_006 paygate Worker.Process lines 150-160: record the created order. -/
def paygateAwaitOrder (ossKey : String) (feeFen : Int) (codeURL : String)
    (j : CompareJob) : CompareJob :=
  if j.Status = .cancelled ∨ j.Paid then j
  else { j with Status := .awaitingPayment, ResultOSSKey := ossKey, ResultPath := "",
                AmountYuan := (feeFen : ℚ) / 100, CodeURL := codeURL, Error := "" }

/-- part_006 paygate Worker.fail lines 172-175: unconditional failure write. -/
def paygateFail (msg : String) (j : CompareJob) : CompareJob :=
  { j with Status := .failed, Error := msg }

/-- service.go handleCreateJob lines 189-192: enqueue-failure mutator. -/
def intakeEnqueueFail (msg : String) (j : CompareJob) : CompareJob :=
  { j with Status := .failed, Error := "投递任务失败: " ++ msg }

/-! ### The notify handler (wechat/notify.go) -/

/-- Go `math.Round` (half away from zero) on the exact rational value. -/
def goRound (q : ℚ) : Int :=
  if 0 ≤ q then ⌊q + 1 / 2⌋ else -⌊-q + 1 / 2⌋

/-- notify.go lines 117-121: the expected minor-unit amount,
`int64(math.Round(job.AmountYuan * 100))`, clamped up to 1 when ≤ 0. -/
def expectedFen (j : CompareJob) : Int :=
  let e := goRound (j.AmountYuan * 100)
  if e ≤ 0 then 1 else e

/-- Minor-unit amount actually recorded on the job (claim C8's reading,
without the clamp the code applies). -/
def recordedFen (j : CompareJob) : Int := goRound (j.AmountYuan * 100)

inductive NotifyReply
  | ok
  | fail
deriving DecidableEq

/-- Decrypted wechatpay transaction (notify.go `wechatpayTransaction`). -/
structure NotifyTx where
  outTradeNo : String
  tradeState : String
  amountTotal : Int
deriving DecidableEq

/-- notify.go lines 104-157, the post-decrypt stage of the notify handler:
blank out_trade_no is rejected; a non-SUCCESS state is acknowledged without
touching the store; for SUCCESS the amount check runs against the loaded job
(skipped when the job is absent) and on success the `notifyUpdate` mutator is
applied. `db` is the store's record for the trimmed out_trade_no (the store
is viewed atomically across the handler's Get and Update). Returns the reply
sent to the provider and the store record afterwards. -/
def notifyProcess (db : Option CompareJob) (tx : NotifyTx) (now : Nat) :
    NotifyReply × Option CompareJob :=
  if goTrimSpace tx.outTradeNo = "" then (.fail, db)
  else if ¬(goToUpper tx.tradeState = "SUCCESS") then (.ok, db)
  else
    match db with
    | some job =>
      if ¬(tx.amountTotal = expectedFen job) then (.fail, some job)
      else (.ok, some (notifyUpdate now job))
    | none => (.ok, none)

/-! ### The stream consumer acknowledgment (streamq, part_009) -/

/-- Go error values as they cross the streamq handler boundary: either a
plain error or a `TerminalError` wrapping an optional inner error. -/
inductive GoErr
  | plain (msg : String)
  | terminalWrap (inner : Option String)
deriving DecidableEq

/-- streamq `IsTerminal` (`errors.As` against `TerminalError`; the handlers in
this repository never nest a TerminalError inside a plain error). -/
def isTerminalErr : Option GoErr → Bool
  | some (.terminalWrap _) => true
  | _ => false

/-- What a dispatched handler invocation did: returned an error value (or
nil), or panicked. -/
inductive HandlerRun
  | returns (e : Option GoErr)
  | panics (msg : String)
deriving DecidableEq

/-- part_009 Consumer.handleOne: whether XAck is issued for a message whose
`jobId` field is `jobIdField`. A missing or blank jobId is acked without
running the handler; a panic is recovered into `Terminal(...)`; then the ack
rule is `err == nil || IsTerminal(err)`. -/
def handleOneAck (jobIdField : Option String) (run : HandlerRun) : Bool :=
  match jobIdField with
  | none => true
  | some raw =>
    if goTrimSpace raw = "" then true
    else
      let err : Option GoErr :=
        match run with
        | .returns e => e
        | .panics m => some (.terminalWrap (some ("panic: " ++ m)))
      decide (err = none) || isTerminalErr err

/-! ### Job stores (store/compare_job_store.go) -/

/-- Store contents as an association list keyed by job id. -/
abbrev JobMap := List (String × CompareJob)

def mapGet (m : JobMap) (id : String) : Option CompareJob :=
  (m.find? (fun p => p.1 = id)).map Prod.snd

/-- Go map assignment `s.jobs[job.ID] = job`. -/
def mapPut : JobMap → CompareJob → JobMap
  | [], job => [(job.ID, job)]
  | (k, v) :: rest, job =>
    if k = job.ID then (k, job) :: rest else (k, v) :: mapPut rest job

/-- InMemoryCompareJobStore.Create (lines 39-44): unconditionally assigns
into the map and returns nil. The error component is an `Option String`. -/
def inMemoryCreate (m : JobMap) (job : CompareJob) : JobMap × Option String :=
  (mapPut m job, none)

/-- RedisCompareJobStore.Create (lines 202-213): `SetNX` writes only when the
key is absent, and its `.Err()` is nil whether or not the value was set. -/
def redisCreate (m : JobMap) (job : CompareJob) : JobMap × Option String :=
  match mapGet m job.ID with
  | none => ((job.ID, job) :: m, none)
  | some _ => (m, none)

/-! ### Sample records used by witnesses and counterexamples -/

def baseJob : CompareJob :=
  { ID := "job_1", Status := .processing, CreatedAt := 0,
    File1Path := "", File2Path := "", File1OSSKey := "i1", File2OSSKey := "i2",
    File1Name := "a.xlsx", File2Name := "b.xlsx",
    ResultPath := "", ResultOSSKey := "", AmountYuan := 0, CodeURL := "",
    Paid := false, PaidAt := none, CancelledAt := none, Error := "" }

def cancelledJob : CompareJob := { baseJob with Status := .cancelled, CancelledAt := some 3 }

def awaitingJob : CompareJob :=
  { baseJob with Status := .awaitingPayment, ResultOSSKey := "r",
                 AmountYuan := 1 / 100, CodeURL := "weixin://x" }

def freeAmountJob : CompareJob :=
  { baseJob with Status := .awaitingPayment, ResultOSSKey := "r" }

def paidJob : CompareJob :=
  { baseJob with Paid := true, PaidAt := some 2, ResultOSSKey := "r" }

/-! ### C4 — consumer acknowledgment policy -/

/-- C4: a dispatched message with a nonblank jobId is acknowledged exactly
when the handler returns success (nil) or a terminal error, a panic being
recovered into a terminal error; a transient (plain) error leaves the message
unacknowledged, hence still in the group's pending entries list. -/
theorem consumerAck_success_or_terminal (raw : String) (run : HandlerRun)
    (h : ¬ goTrimSpace raw = "") :
    handleOneAck (some raw) run = true ↔
      (run = .returns none ∨ (∃ inner, run = .returns (some (.terminalWrap inner))) ∨
       ∃ m, run = .panics m) := by
  show (if goTrimSpace raw = "" then true
        else
          let err : Option GoErr :=
            match run with
            | .returns e => e
            | .panics m => some (.terminalWrap (some ("panic: " ++ m)))
          decide (err = none) || isTerminalErr err) = true ↔ _
  rw [if_neg h]
  cases run with
  | returns e =>
    cases e with
    | none => simp
    | some g => cases g with
      | plain m => simp [isTerminalErr]
      | terminalWrap i => simp [isTerminalErr]
  | panics m => simp [isTerminalErr]

theorem consumerAck_witness :
    ¬ goTrimSpace "job_7" = "" ∧
    handleOneAck (some "job_7") (.panics "boom") = true ∧
    handleOneAck (some "job_7") (.returns (some (.plain "net timeout"))) = false :=
  ⟨by decide,
   (consumerAck_success_or_terminal "job_7" (.panics "boom") (by decide)).mpr
     (Or.inr (Or.inr ⟨"boom", rfl⟩)),
   by decide⟩

/-! ### C5 — paid is monotone -/

/-- C5: every reachable store mutator (notify, cancel, compute worker's
mark-processing / persist-result / fail, paygate worker's release / free /
await-order / fail, intake enqueue-failure) preserves `Paid = true`. -/
theorem paid_monotone (j : CompareJob) (now : Nat) (ossKey msg codeURL : String)
    (feeFen : Int) (h : j.Paid = true) :
    (notifyUpdate now j).Paid = true ∧ (cancelUpdate now j).Paid = true ∧
    (computeMarkProcessing j).Paid = true ∧ (computePersistResult ossKey j).Paid = true ∧
    (computeFail msg j).Paid = true ∧ (paygateReleasePaid ossKey j).Paid = true ∧
    (paygateFreeRelease now ossKey j).Paid = true ∧
    (paygateAwaitOrder ossKey feeFen codeURL j).Paid = true ∧
    (paygateFail msg j).Paid = true ∧ (intakeEnqueueFail msg j).Paid = true := by
  refine ⟨?_, ?_, ?_, ?_, ?_, ?_, ?_, ?_, ?_, ?_⟩
  · simp [notifyUpdate, h]
  · simp [cancelUpdate, h]
  · unfold computeMarkProcessing
    split <;> simp [h]
  · unfold computePersistResult
    split <;> simp [h]
  · simp [computeFail, h]
  · unfold paygateReleasePaid
    split <;> simp [h]
  · unfold paygateFreeRelease
    split <;> simp [h]
  · simp [paygateAwaitOrder, h]
  · simp [paygateFail, h]
  · simp [intakeEnqueueFail, h]

theorem paid_monotone_witness :
    paidJob.Paid = true ∧ (cancelUpdate 9 paidJob).Paid = true :=
  ⟨by decide, (paid_monotone paidJob 9 "r" "msg" "url" 1 (by decide)).2.1⟩

/-! ### C6 — terminal statuses -/

/-- C6 (amended): only `cancelled` is treated as terminal, and only by the
guarded mutators — mark-processing, persist-result, paygate release / free /
await-order are full no-ops on a cancelled record; the failure mutators
(compute fail, paygate fail, intake enqueue-failure) write `failed`
unconditionally, even over a cancelled or ready record; and `ready` is not
guarded at all (mark-processing moves a ready record back to processing). -/
theorem terminal_status_guards (j : CompareJob) (now : Nat) (ossKey codeURL msg : String)
    (feeFen : Int) (h : j.Status = .cancelled) :
    computeMarkProcessing j = j ∧ computePersistResult ossKey j = j ∧
    paygateReleasePaid ossKey j = j ∧ paygateFreeRelease now ossKey j = j ∧
    paygateAwaitOrder ossKey feeFen codeURL j = j ∧
    (computeFail msg j).Status = .failed ∧ (paygateFail msg j).Status = .failed ∧
    (intakeEnqueueFail msg j).Status = .failed ∧
    (∀ j2 : CompareJob, j2.Status = .ready →
      (computeMarkProcessing j2).Status = .processing) := by
  refine ⟨?_, ?_, ?_, ?_, ?_, ?_, ?_, ?_, ?_⟩
  · simp [computeMarkProcessing, h]
  · simp [computePersistResult, h]
  · simp [paygateReleasePaid, h]
  · simp [paygateFreeRelease, h]
  · simp [paygateAwaitOrder, h]
  · simp [computeFail]
  · simp [paygateFail]
  · simp [intakeEnqueueFail]
  · intro j2 h2
    have : ¬ j2.Status = CompareJobStatus.cancelled := by
      rw [h2]
      exact fun hh => by cases hh
    simp [computeMarkProcessing, this]

theorem terminal_status_cex :
    cancelledJob.Status = .cancelled ∧
    (computeFail "上传 OSS 失败" cancelledJob).Status = .failed ∧
    ¬ computeFail "上传 OSS 失败" cancelledJob = cancelledJob := by
  refine ⟨by decide, by decide, ?_⟩
  intro h
  have := congrArg CompareJob.Status h
  simp [computeFail, cancelledJob, baseJob] at this

theorem terminal_status_witness :
    computeMarkProcessing cancelledJob = cancelledJob ∧
    (computeFail "boom" cancelledJob).Status = .failed :=
  ⟨(terminal_status_guards cancelledJob 9 "r" "url" "boom" 1 (by decide)).1,
   (terminal_status_guards cancelledJob 9 "r" "url" "boom" 1 (by decide)).2.2.2.2.2.1⟩

/-! ### C7 — notify idempotence -/

theorem notifyUpdate_paid (now : Nat) (j : CompareJob) : (notifyUpdate now j).Paid = true := by
  unfold notifyUpdate
  by_cases h : j.Paid
  · simp [h]
  · simp only [h, Bool.false_eq_true, if_false]
    split
    · rfl
    · split <;> rfl

theorem foldl_notify_of_paid (ts : List Nat) (acc : CompareJob) (h : acc.Paid = true) :
    ts.foldl (fun a t => notifyUpdate t a) acc = acc := by
  induction ts with
  | nil => rfl
  | cons t ts ih =>
    have hstep : notifyUpdate t acc = acc := by
      unfold notifyUpdate
      rw [if_pos h]
    simp only [List.foldl_cons, hstep]
    exact ih

/-- C7: replaying the SUCCESS-notification mutator any number of further
times (at arbitrary later timestamps) leaves the record produced by the first
application unchanged: after the first application `Paid` is true, and the
mutator is the identity on paid records. -/
theorem notify_idempotent (j : CompareJob) (now : Nat) (laters : List Nat) :
    laters.foldl (fun acc t => notifyUpdate t acc) (notifyUpdate now j) =
      notifyUpdate now j :=
  foldl_notify_of_paid laters (notifyUpdate now j) (notifyUpdate_paid now j)

/-! ### C8 — amount check in the notify handler -/

theorem goRound_intCast (n : Int) : goRound ((n : Int) : ℚ) = n := by
  have h12 : ⌊(1 : ℚ) / 2⌋ = 0 := by
    rw [Int.floor_eq_zero_iff]
    constructor <;> norm_num
  unfold goRound
  by_cases hn : 0 ≤ ((n : Int) : ℚ)
  · rw [if_pos hn, Int.floor_int_add, h12, add_zero]
  · rw [if_neg hn]
    have hcast : -((n : Int) : ℚ) = (((-n : Int)) : ℚ) := by push_cast; ring
    rw [hcast, Int.floor_int_add, h12, add_zero, neg_neg]

theorem expectedFen_awaitingJob : expectedFen awaitingJob = 1 := by
  have h : awaitingJob.AmountYuan * 100 = ((1 : Int) : ℚ) := by
    norm_num [awaitingJob, baseJob]
  simp only [expectedFen, h, goRound_intCast]
  norm_num

theorem recordedFen_freeAmountJob : recordedFen freeAmountJob = 0 := by
  have h : freeAmountJob.AmountYuan * 100 = ((0 : Int) : ℚ) := by
    norm_num [freeAmountJob, baseJob]
  simp only [recordedFen, h, goRound_intCast]

theorem expectedFen_freeAmountJob : expectedFen freeAmountJob = 1 := by
  have h : freeAmountJob.AmountYuan * 100 = ((0 : Int) : ℚ) := by
    norm_num [freeAmountJob, baseJob]
  simp only [expectedFen, h, goRound_intCast]
  norm_num

theorem expectedFen_cancelledJob : expectedFen cancelledJob = 1 := by
  have h : cancelledJob.AmountYuan * 100 = ((0 : Int) : ℚ) := by
    norm_num [cancelledJob, baseJob]
  simp only [expectedFen, h, goRound_intCast]
  norm_num

/-- Reduction of the notify handler on a found job for a nonblank SUCCESS
notification: only the amount check remains. -/
theorem notifyProcess_some (job : CompareJob) (tx : NotifyTx) (now : Nat)
    (hid : ¬ goTrimSpace tx.outTradeNo = "")
    (hs : goToUpper tx.tradeState = "SUCCESS") :
    notifyProcess (some job) tx now =
      if ¬ tx.amountTotal = expectedFen job then (.fail, some job)
      else (.ok, some (notifyUpdate now job)) := by
  show (if goTrimSpace tx.outTradeNo = "" then ((.fail, some job) : NotifyReply × Option CompareJob)
        else if ¬(goToUpper tx.tradeState = "SUCCESS") then (.ok, some job)
        else if ¬ tx.amountTotal = expectedFen job then (.fail, some job)
        else (.ok, some (notifyUpdate now job))) = _
  rw [if_neg hid, if_neg (fun hh => hh hs)]

/-- C8 (amended): for a SUCCESS notification naming an existing job, the
handler replies FAIL and leaves the record untouched exactly when
`amount_total` differs from the expected amount — which is
`round(AmountYuan * 100)` clamped up to a minimum of 1 (notify.go falls back
to 1 fen when the recorded amount is not positive); the paid/status mutator
runs only on a match. -/
theorem notify_amount_check (job : CompareJob) (tx : NotifyTx) (now : Nat)
    (hid : ¬ goTrimSpace tx.outTradeNo = "")
    (hs : goToUpper tx.tradeState = "SUCCESS") :
    (¬ tx.amountTotal = expectedFen job →
        notifyProcess (some job) tx now = (.fail, some job)) ∧
    (tx.amountTotal = expectedFen job →
        notifyProcess (some job) tx now = (.ok, some (notifyUpdate now job))) := by
  rw [notifyProcess_some job tx now hid hs]
  constructor <;> intro h
  · rw [if_pos h]
  · rw [if_neg (fun hh => hh h)]

theorem notify_amount_check_witness :
    notifyProcess (some awaitingJob) ⟨"job_1", "SUCCESS", 5⟩ 9 = (.fail, some awaitingJob) ∧
    notifyProcess (some awaitingJob) ⟨"job_1", "SUCCESS", 1⟩ 9 =
      (.ok, some (notifyUpdate 9 awaitingJob)) :=
  ⟨(notify_amount_check awaitingJob ⟨"job_1", "SUCCESS", 5⟩ 9 (by decide) (by decide)).1
     (by rw [expectedFen_awaitingJob]; decide),
   (notify_amount_check awaitingJob ⟨"job_1", "SUCCESS", 1⟩ 9 (by decide) (by decide)).2
     (by rw [expectedFen_awaitingJob])⟩

/-- C8 counterexample to the claim as stated: on a job whose recorded
minor-unit amount is 0, a SUCCESS notification carrying `amount_total = 1`
differs from the recorded amount yet is accepted (the code clamps the
expected amount up to 1), and the mutator runs and changes the record. -/
theorem notify_amount_cex :
    recordedFen freeAmountJob = 0 ∧
    ¬ (1 : Int) = recordedFen freeAmountJob ∧
    notifyProcess (some freeAmountJob) ⟨"job_1", "SUCCESS", 1⟩ 9 =
      (.ok, some (notifyUpdate 9 freeAmountJob)) ∧
    ¬ (notifyProcess (some freeAmountJob) ⟨"job_1", "SUCCESS", 1⟩ 9).2 =
        some freeAmountJob := by
  have hred : notifyProcess (some freeAmountJob) ⟨"job_1", "SUCCESS", 1⟩ 9 =
      (.ok, some (notifyUpdate 9 freeAmountJob)) := by
    rw [notifyProcess_some freeAmountJob ⟨"job_1", "SUCCESS", 1⟩ 9 (by decide) (by decide)]
    rw [if_neg (fun hh => hh (by rw [expectedFen_freeAmountJob]))]
  refine ⟨recordedFen_freeAmountJob, by rw [recordedFen_freeAmountJob]; decide, hred, ?_⟩
  rw [hred]
  intro h
  have h3 : notifyUpdate 9 freeAmountJob = freeAmountJob := by
    injection h
  have hpd := congrArg CompareJob.Paid h3
  rw [notifyUpdate_paid] at hpd
  simp [freeAmountJob, baseJob] at hpd

/-! ### C9 — store Create semantics -/

theorem mapGet_mapPut (m : JobMap) (job : CompareJob) :
    mapGet (mapPut m job) job.ID = some job := by
  induction m with
  | nil => simp [mapPut, mapGet, List.find?]
  | cons p rest ih =>
    obtain ⟨k, v⟩ := p
    by_cases h : k = job.ID
    · simp [mapPut, h, mapGet, List.find?]
    · simp only [mapPut, if_neg h]
      simp [mapGet, List.find?, h] at ih ⊢
      exact ih

/-- C9 (amended): neither store's Create ever reports an error. The redis
store (`SetNX`) inserts only when the id is absent and silently leaves an
existing record in place; the in-memory store unconditionally overwrites the
record under that id. -/
theorem create_semantics (m : JobMap) (job : CompareJob) :
    (inMemoryCreate m job).2 = none ∧ (redisCreate m job).2 = none ∧
    mapGet (inMemoryCreate m job).1 job.ID = some job ∧
    (mapGet m job.ID = none → redisCreate m job = ((job.ID, job) :: m, none)) ∧
    (∀ v, mapGet m job.ID = some v → (redisCreate m job).1 = m) := by
  refine ⟨rfl, ?_, mapGet_mapPut m job, ?_, ?_⟩
  · unfold redisCreate
    cases h : mapGet m job.ID <;> simp
  · intro h
    simp [redisCreate, h]
  · intro v h
    simp [redisCreate, h]

def storedJob : CompareJob := baseJob

def overwritingJob : CompareJob := { baseJob with File1Name := "c.xlsx" }

/-- C9 counterexample to the claim as stated: creating a job whose id is
already present returns no error in either store, and the in-memory store
replaces the stored record. -/
theorem create_cex :
    ¬ overwritingJob = storedJob ∧
    inMemoryCreate [("job_1", storedJob)] overwritingJob =
      ([("job_1", overwritingJob)], none) ∧
    redisCreate [("job_1", storedJob)] overwritingJob =
      ([("job_1", storedJob)], none) := by
  refine ⟨?_, by decide, by decide⟩
  intro h
  have := congrArg CompareJob.File1Name h
  simp [overwritingJob, storedJob, baseJob] at this

theorem create_semantics_witness :
    mapGet [("job_1", storedJob)] overwritingJob.ID = some storedJob ∧
    (redisCreate [("job_1", storedJob)] overwritingJob).1 = [("job_1", storedJob)] :=
  ⟨by decide,
   (create_semantics [("job_1", storedJob)] overwritingJob).2.2.2.2 storedJob (by decide)⟩

/-! ### C10 — a cancelled unpaid job still becomes paid on notify -/

/-- C10: a SUCCESS notification with matching amount on a cancelled, unpaid
job runs the mutator, which sets `Paid` and `PaidAt` while leaving the status
`cancelled` (the ready-advance requires status awaiting_payment/processing,
and the awaiting_payment fallback does not apply either). -/
theorem cancelled_job_gets_paid (j : CompareJob) (tx : NotifyTx) (now : Nat)
    (hc : j.Status = .cancelled) (hp : j.Paid = false)
    (hid : ¬ goTrimSpace tx.outTradeNo = "")
    (hs : goToUpper tx.tradeState = "SUCCESS")
    (ha : tx.amountTotal = expectedFen j) :
    notifyProcess (some j) tx now = (.ok, some (notifyUpdate now j)) ∧
    (notifyUpdate now j).Paid = true ∧
    (notifyUpdate now j).PaidAt = some now ∧
    (notifyUpdate now j).Status = .cancelled := by
  refine ⟨?_, notifyUpdate_paid now j, ?_, ?_⟩
  · rw [notifyProcess_some j tx now hid hs, if_neg (fun hh => hh ha)]
  · unfold notifyUpdate
    rw [if_neg (by simp [hp])]
    rw [if_neg (by rintro ⟨-, h | h⟩ <;> simp [hc] at h), if_neg (by simp [hc])]
  · unfold notifyUpdate
    rw [if_neg (by simp [hp])]
    rw [if_neg (by rintro ⟨-, h | h⟩ <;> simp [hc] at h), if_neg (by simp [hc])]
    exact hc

theorem cancelled_job_gets_paid_witness :
    notifyProcess (some cancelledJob) ⟨"job_1", "SUCCESS", 1⟩ 9 =
      (.ok, some (notifyUpdate 9 cancelledJob)) ∧
    (notifyUpdate 9 cancelledJob).Paid = true ∧
    (notifyUpdate 9 cancelledJob).PaidAt = some 9 ∧
    (notifyUpdate 9 cancelledJob).Status = .cancelled :=
  cancelled_job_gets_paid cancelledJob ⟨"job_1", "SUCCESS", 1⟩ 9
    (by decide) (by decide) (by decide) (by decide) (by rw [expectedFen_cancelledJob])

/-! ### excelcmp compare artifacts (part_007) and diff export (export.go)

A keyed table (Go `map[string][]string` of normalized key to original row) is
embedded as an association list; the claims assume duplicate-free keys. The
Go map iteration order is irrelevant to the embedded results: every key list
the code produces is sorted before use, and with duplicate-free keys the
sorted list is determined by the key set alone. -/

abbrev KeyedRows := List (String × List String)

def containsKey (m : KeyedRows) (k : String) : Bool := m.any (fun p => p.1 = k)

/-- Row stored under a key (Go `m[k]`, the nil slice when absent). -/
def lookupRow (m : KeyedRows) (k : String) : List String :=
  ((m.find? (fun p => p.1 = k)).map Prod.snd).getD []

/-- Go `sort.Strings`: UTF-8 byte order = code-point lexicographic order. -/
def sortStrings (l : List String) : List String := l.mergeSort (fun a b => decide (a ≤ b))

/-- part_007 compareArtifactsFromMaps: file1-only keys, sorted. -/
def reducedKeysOf (m1 m2 : KeyedRows) : List String :=
  sortStrings ((m1.map Prod.fst).filter (fun k => !containsKey m2 k))

/-- part_007 compareArtifactsFromMaps: file2-only keys, sorted. -/
def incKeysOf (m1 m2 : KeyedRows) : List String :=
  sortStrings ((m2.map Prod.fst).filter (fun k => !containsKey m1 k))

/-- part_007 compareArtifactsFromMaps: common keys, sorted. -/
def commonKeysOf (m1 m2 : KeyedRows) : List String :=
  sortStrings ((m1.map Prod.fst).filter (fun k => containsKey m2 k))

/-- part_007 orderedUnionCols, second loop. The `set` membership test in the
source is a tautology (every header of h2 is in the union set), so only the
key exclusion and the incremental `seen` deduplication are active. -/
def orderedUnionTail (key : String) : List String → List String → List String
  | _, [] => []
  | seen, c :: rest =>
    if c = key then orderedUnionTail key seen rest
    else if c ∈ seen then orderedUnionTail key seen rest
    else c :: orderedUnionTail key (c :: seen) rest

/-- part_007 orderedUnionCols: file1 headers minus the key (duplicates kept,
as in the source), then file2's remaining headers in order. -/
def orderedUnionCols (h1 h2 : List String) (key : String) : List String :=
  let out := h1.filter (fun c => !(c = key : Bool))
  out ++ orderedUnionTail key out h2

/-- part_007 headerIndexMap: header name to column index; the Go map
assignment keeps the LAST occurrence on duplicate names. -/
def headerIndexMap (hs : List String) (c : String) : Option Nat :=
  ((hs.enum.filter (fun p => p.2 = c)).getLast?).map Prod.fst

/-- part_007 alignedColumnIndices for one side: index into that file's row,
or -1 when the column is missing there. -/
def alignedIdx (cols hs : List String) : List Int :=
  cols.map (fun c =>
    match headerIndexMap hs c with
    | some i => (i : Int)
    | none => -1)

/-- UTF-8 encoding of one character (RFC 3629). -/
def utf8BytesOfChar (c : Char) : List Nat :=
  let n := c.toNat
  if n < 0x80 then [n]
  else if n < 0x800 then
    [0xC0 ||| (n >>> 6), 0x80 ||| (n &&& 0x3F)]
  else if n < 0x10000 then
    [0xE0 ||| (n >>> 12), 0x80 ||| ((n >>> 6) &&& 0x3F), 0x80 ||| (n &&& 0x3F)]
  else
    [0xF0 ||| (n >>> 18), 0x80 ||| ((n >>> 12) &&& 0x3F),
     0x80 ||| ((n >>> 6) &&& 0x3F), 0x80 ||| (n &&& 0x3F)]

/-- part_007 fingerprint64: FNV-1a over the string's UTF-8 bytes, with the
`uint64` wraparound made explicit. -/
def fingerprint64 (s : String) : Nat :=
  ((s.data.map utf8BytesOfChar).flatten).foldl
    (fun h b => ((h ^^^ b) * 1099511628211) % (2 ^ 64)) 14695981039346656037

/-- export.go writeDiffSideBySideStream cell fetch: `row[i]` when the aligned
index is nonnegative and in range, the empty string otherwise. -/
def cellAt (row : List String) (idx : Int) : String :=
  if 0 ≤ idx then row.getD idx.toNat "" else ""

/-- export.go per-cell difference test: fingerprint mismatch, with a string
comparison fallback on collision. The bounded normalization cache of the
source stores exactly the function values it caches, so it is semantically
transparent and not modelled. -/
def cellDiff (va vb : String) : Bool :=
  let n1 := normalizeScalarForCompare va
  let n2 := normalizeScalarForCompare vb
  !(fingerprint64 n1 = fingerprint64 n2 : Bool) || !(n1 = n2 : Bool)

/-- export.go row scan: some column of the ordered union differs. -/
def rowHasDiff (nCols : Nat) (idx1 idx2 : List Int) (left right : List String) : Bool :=
  (List.range nCols).any (fun i =>
    cellDiff (cellAt left (idx1.getD i (-1))) (cellAt right (idx2.getD i (-1))))

/-- part_007 Artifacts. -/
structure Artifacts where
  Key : String
  ReducedKeys : List String
  IncKeys : List String
  RedHeaders : List String
  IncHeaders : List String
  OrderedCols : List String
  CommonKeys : List String
  LeftByKey : KeyedRows
  RightByKey : KeyedRows
  ColIdx1 : List Int
  ColIdx2 : List Int

/-- part_007 compareArtifactsFromMaps. -/
def compareArtifactsFromMaps (headers1 headers2 : List String) (m1 m2 : KeyedRows)
    (key : String) : Option Artifacts :=
  if goTrimSpace key = "" then none
  else
    let cols := orderedUnionCols headers1 headers2 key
    some {
      Key := key
      ReducedKeys := reducedKeysOf m1 m2
      IncKeys := incKeysOf m1 m2
      RedHeaders := headers1
      IncHeaders := headers2
      OrderedCols := cols
      CommonKeys := commonKeysOf m1 m2
      LeftByKey := m1
      RightByKey := m2
      ColIdx1 := alignedIdx cols headers1
      ColIdx2 := alignedIdx cols headers2 }

/-- export.go writeDiffSideBySideStream: the common keys that receive a data
row on the Changed sheet, in iteration order over the sorted CommonKeys. -/
def diffSheetKeys (art : Artifacts) : List String :=
  art.CommonKeys.filter (fun k =>
    rowHasDiff art.OrderedCols.length art.ColIdx1 art.ColIdx2
      (lookupRow art.LeftByKey k) (lookupRow art.RightByKey k))

/-- export.go writeSimpleKeyedSheetStream: data-row keys of the Added/Removed
sheets — the precomputed sorted key list, skipping keys missing from the map
(none are, for the artifact's own maps). -/
def simpleSheetKeys (keys : List String) (byKey : KeyedRows) : List String :=
  keys.filter (fun k => containsKey byKey k)

/-! Bridging lemmas for C1. -/

theorem containsKey_iff (m : KeyedRows) (k : String) :
    containsKey m k = true ↔ k ∈ m.map Prod.fst := by
  simp [containsKey, List.any_eq_true, List.mem_map]

theorem mem_sortStrings {l : List String} {a : String} : a ∈ sortStrings l ↔ a ∈ l :=
  List.mem_mergeSort

theorem sortStrings_nodup {l : List String} (h : l.Nodup) : (sortStrings l).Nodup :=
  (List.mergeSort_perm l _).symm.nodup h

theorem sortStrings_sorted_lt {l : List String} (h : l.Nodup) :
    List.Sorted (· < ·) (sortStrings l) :=
  (List.sorted_mergeSort' l).lt_of_le (sortStrings_nodup h)

theorem containsKey_false_iff (m : KeyedRows) (k : String) :
    (!containsKey m k) = true ↔ ¬ k ∈ m.map Prod.fst := by
  rw [Bool.not_eq_true']
  constructor
  · intro h hmem
    rw [(containsKey_iff m k).mpr hmem] at h
    simp at h
  · intro h
    cases hc : containsKey m k
    · rfl
    · exact absurd ((containsKey_iff m k).mp hc) h

theorem mem_incKeysOf {m1 m2 : KeyedRows} {k : String} :
    k ∈ incKeysOf m1 m2 ↔ (k ∈ m2.map Prod.fst ∧ ¬ k ∈ m1.map Prod.fst) := by
  unfold incKeysOf
  rw [mem_sortStrings, List.mem_filter, containsKey_false_iff]

theorem mem_reducedKeysOf {m1 m2 : KeyedRows} {k : String} :
    k ∈ reducedKeysOf m1 m2 ↔ (k ∈ m1.map Prod.fst ∧ ¬ k ∈ m2.map Prod.fst) := by
  unfold reducedKeysOf
  rw [mem_sortStrings, List.mem_filter, containsKey_false_iff]

theorem mem_commonKeysOf {m1 m2 : KeyedRows} {k : String} :
    k ∈ commonKeysOf m1 m2 ↔ (k ∈ m1.map Prod.fst ∧ k ∈ m2.map Prod.fst) := by
  unfold commonKeysOf
  rw [mem_sortStrings, List.mem_filter, containsKey_iff]

theorem simpleSheetKeys_eq_self {keys : List String} {m : KeyedRows}
    (h : ∀ k ∈ keys, containsKey m k = true) : simpleSheetKeys keys m = keys :=
  List.filter_eq_self.mpr h

theorem cellDiff_iff (va vb : String) :
    cellDiff va vb = true ↔
      ¬ normalizeScalarForCompare va = normalizeScalarForCompare vb := by
  unfold cellDiff
  by_cases h : normalizeScalarForCompare va = normalizeScalarForCompare vb
  · simp [h]
  · simp [h]

theorem rowHasDiff_iff (nCols : Nat) (idx1 idx2 : List Int) (left right : List String) :
    rowHasDiff nCols idx1 idx2 left right = true ↔
      ∃ i < nCols,
        ¬ normalizeScalarForCompare (cellAt left (idx1.getD i (-1))) =
            normalizeScalarForCompare (cellAt right (idx2.getD i (-1))) := by
  unfold rowHasDiff
  rw [List.any_eq_true]
  constructor
  · rintro ⟨i, hi, hd⟩
    exact ⟨i, List.mem_range.mp hi, (cellDiff_iff _ _).mp hd⟩
  · rintro ⟨i, hi, hd⟩
    exact ⟨i, List.mem_range.mpr hi, (cellDiff_iff _ _).mpr hd⟩

/-- C1: for duplicate-free keyed maps and a nonblank key name, the artifact
construction succeeds and partitions the normalized keys exactly — the Added
sheet carries precisely the keys of file 2's map absent from file 1's, the
Removed sheet the converse, and a common key receives a Changed row iff some
column of the ordered union has differing normalized values (the fingerprint
comparison plus string fallback collapses to inequality of the normalized
strings); each sheet's data keys are in strictly ascending lexicographic
order. -/
theorem diff_partition (headers1 headers2 : List String) (m1 m2 : KeyedRows) (key : String)
    (hk : ¬ goTrimSpace key = "")
    (hn1 : (m1.map Prod.fst).Nodup) (hn2 : (m2.map Prod.fst).Nodup) :
    ∃ art, compareArtifactsFromMaps headers1 headers2 m1 m2 key = some art ∧
      art.OrderedCols = orderedUnionCols headers1 headers2 key ∧
      (∀ k, k ∈ simpleSheetKeys art.IncKeys art.RightByKey ↔
        (k ∈ m2.map Prod.fst ∧ ¬ k ∈ m1.map Prod.fst)) ∧
      (∀ k, k ∈ simpleSheetKeys art.ReducedKeys art.LeftByKey ↔
        (k ∈ m1.map Prod.fst ∧ ¬ k ∈ m2.map Prod.fst)) ∧
      (∀ k, k ∈ diffSheetKeys art ↔
        (k ∈ m1.map Prod.fst ∧ k ∈ m2.map Prod.fst ∧
          ∃ i < art.OrderedCols.length,
            ¬ normalizeScalarForCompare (cellAt (lookupRow m1 k) (art.ColIdx1.getD i (-1))) =
              normalizeScalarForCompare (cellAt (lookupRow m2 k) (art.ColIdx2.getD i (-1))))) ∧
      List.Sorted (· < ·) (simpleSheetKeys art.IncKeys art.RightByKey) ∧
      List.Sorted (· < ·) (simpleSheetKeys art.ReducedKeys art.LeftByKey) ∧
      List.Sorted (· < ·) (diffSheetKeys art) := by
  have hart : compareArtifactsFromMaps headers1 headers2 m1 m2 key =
      some { Key := key, ReducedKeys := reducedKeysOf m1 m2, IncKeys := incKeysOf m1 m2,
             RedHeaders := headers1, IncHeaders := headers2,
             OrderedCols := orderedUnionCols headers1 headers2 key,
             CommonKeys := commonKeysOf m1 m2, LeftByKey := m1, RightByKey := m2,
             ColIdx1 := alignedIdx (orderedUnionCols headers1 headers2 key) headers1,
             ColIdx2 := alignedIdx (orderedUnionCols headers1 headers2 key) headers2 } := by
    unfold compareArtifactsFromMaps
    rw [if_neg hk]
  have hincAll : ∀ k ∈ incKeysOf m1 m2, containsKey m2 k = true :=
    fun k hk2 => (containsKey_iff m2 k).mpr (mem_incKeysOf.mp hk2).1
  have hredAll : ∀ k ∈ reducedKeysOf m1 m2, containsKey m1 k = true :=
    fun k hk2 => (containsKey_iff m1 k).mpr (mem_reducedKeysOf.mp hk2).1
  refine ⟨_, hart, rfl, ?_, ?_, ?_, ?_, ?_, ?_⟩
  · intro k
    show k ∈ simpleSheetKeys (incKeysOf m1 m2) m2 ↔ _
    rw [simpleSheetKeys_eq_self hincAll]
    exact mem_incKeysOf
  · intro k
    show k ∈ simpleSheetKeys (reducedKeysOf m1 m2) m1 ↔ _
    rw [simpleSheetKeys_eq_self hredAll]
    exact mem_reducedKeysOf
  · intro k
    show k ∈ (commonKeysOf m1 m2).filter _ ↔ _
    rw [List.mem_filter, rowHasDiff_iff, mem_commonKeysOf, and_assoc]
  · show List.Sorted (· < ·) (simpleSheetKeys (incKeysOf m1 m2) m2)
    rw [simpleSheetKeys_eq_self hincAll]
    exact sortStrings_sorted_lt (hn2.filter _)
  · show List.Sorted (· < ·) (simpleSheetKeys (reducedKeysOf m1 m2) m1)
    rw [simpleSheetKeys_eq_self hredAll]
    exact sortStrings_sorted_lt (hn1.filter _)
  · show List.Sorted (· < ·) ((commonKeysOf m1 m2).filter _)
    exact (sortStrings_sorted_lt (hn1.filter _)).filter _

/-- Keyed rows of the repository's own export test, file 1 side. -/
def m1W : KeyedRows := [("1", ["1", "张三", "18"]), ("2", ["2", "李四", "20"])]

/-- Keyed rows of the repository's own export test, file 2 side. -/
def m2W : KeyedRows := [("1", ["1", "张三", "19"]), ("3", ["3", "王五", "22"])]

def headersW : List String := ["编号", "姓名", "年龄"]

theorem diff_partition_witness :
    ∃ art, compareArtifactsFromMaps headersW headersW m1W m2W "编号" = some art ∧
      art.OrderedCols = orderedUnionCols headersW headersW "编号" ∧
      (∀ k, k ∈ simpleSheetKeys art.IncKeys art.RightByKey ↔
        (k ∈ m2W.map Prod.fst ∧ ¬ k ∈ m1W.map Prod.fst)) ∧
      (∀ k, k ∈ simpleSheetKeys art.ReducedKeys art.LeftByKey ↔
        (k ∈ m1W.map Prod.fst ∧ ¬ k ∈ m2W.map Prod.fst)) ∧
      (∀ k, k ∈ diffSheetKeys art ↔
        (k ∈ m1W.map Prod.fst ∧ k ∈ m2W.map Prod.fst ∧
          ∃ i < art.OrderedCols.length,
            ¬ normalizeScalarForCompare (cellAt (lookupRow m1W k) (art.ColIdx1.getD i (-1))) =
              normalizeScalarForCompare (cellAt (lookupRow m2W k) (art.ColIdx2.getD i (-1))))) ∧
      List.Sorted (· < ·) (simpleSheetKeys art.IncKeys art.RightByKey) ∧
      List.Sorted (· < ·) (simpleSheetKeys art.ReducedKeys art.LeftByKey) ∧
      List.Sorted (· < ·) (diffSheetKeys art) :=
  diff_partition headersW headersW m1W m2W "编号" (by decide) (by decide) (by decide)

/-! Bridging lemmas for C3. -/

/-- Invariant of the best-column fold: either the accumulator survives and
every qualified column in the remaining list scores at most the accumulated
score, or the result is the first column of the list attaining the overall
maximum (strictly above the accumulator, strictly above every qualified
column before it, at least every qualified column after it). -/
theorem guessGo_spec (tbl : Table) (cr : Nat) :
    ∀ (cols : List (Nat × String)) (bc : String) (bs : Int),
      (guessGo tbl cr cols bc bs = (bc, bs) ∧
        ∀ p ∈ cols, ∀ vs, colQualifies tbl p.1 cr = some vs →
          (colScore p.2 vs : Int) ≤ bs) ∨
      (∃ pre p post vs, cols = pre ++ p :: post ∧
        colQualifies tbl p.1 cr = some vs ∧
        guessGo tbl cr cols bc bs = (p.2, (colScore p.2 vs : Int)) ∧
        bs < (colScore p.2 vs : Int) ∧
        (∀ q ∈ pre, ∀ vs2, colQualifies tbl q.1 cr = some vs2 →
          (colScore q.2 vs2 : Int) < (colScore p.2 vs : Int)) ∧
        (∀ q ∈ post, ∀ vs2, colQualifies tbl q.1 cr = some vs2 →
          (colScore q.2 vs2 : Int) ≤ (colScore p.2 vs : Int))) := by
  intro cols
  induction cols with
  | nil =>
    intro bc bs
    left
    exact ⟨rfl, by simp⟩
  | cons head rest ih =>
    intro bc bs
    obtain ⟨idx, name⟩ := head
    rcases hq : colQualifies tbl idx cr with _ | vs
    · have hstep : guessGo tbl cr ((idx, name) :: rest) bc bs = guessGo tbl cr rest bc bs := by
        simp only [guessGo, hq]
      rcases ih bc bs with ⟨heq, hbound⟩ | ⟨pre, p, post, vs, hsplit, hq2, heq, hlt, hpre, hpost⟩
      · left
        refine ⟨hstep.trans heq, ?_⟩
        intro p hp vs hv
        rcases List.mem_cons.mp hp with hh | hh
        · subst hh
          exact absurd (hv.symm.trans hq) (by simp)
        · exact hbound p hh vs hv
      · right
        refine ⟨(idx, name) :: pre, p, post, vs, by rw [hsplit]; rfl, hq2,
          hstep.trans heq, hlt, ?_, hpost⟩
        intro q hqm vs2 hv2
        rcases List.mem_cons.mp hqm with hh | hh
        · subst hh
          exact absurd (hv2.symm.trans hq) (by simp)
        · exact hpre q hh vs2 hv2
    · by_cases hlt0 : bs < (colScore name vs : Int)
      · have hstep : guessGo tbl cr ((idx, name) :: rest) bc bs =
            guessGo tbl cr rest name (colScore name vs : Int) := by
          simp only [guessGo, hq, if_pos hlt0]
        rcases ih name (colScore name vs : Int) with
          ⟨heq, hbound⟩ | ⟨pre, p, post, vs2, hsplit, hq2, heq, hlt, hpre, hpost⟩
        · right
          exact ⟨[], (idx, name), rest, vs, rfl, hq, hstep.trans heq, hlt0, by simp, hbound⟩
        · right
          refine ⟨(idx, name) :: pre, p, post, vs2, by rw [hsplit]; rfl, hq2,
            hstep.trans heq, lt_trans hlt0 hlt, ?_, hpost⟩
          intro q hqm vs3 hv3
          rcases List.mem_cons.mp hqm with hh | hh
          · subst hh
            injection hv3.symm.trans hq with hvv
            subst hvv
            exact hlt
          · exact hpre q hh vs3 hv3
      · have hstep : guessGo tbl cr ((idx, name) :: rest) bc bs = guessGo tbl cr rest bc bs := by
          simp only [guessGo, hq, if_neg hlt0]
        rcases ih bc bs with ⟨heq, hbound⟩ | ⟨pre, p, post, vs2, hsplit, hq2, heq, hlt, hpre, hpost⟩
        · left
          refine ⟨hstep.trans heq, ?_⟩
          intro p hp vs2 hv2
          rcases List.mem_cons.mp hp with hh | hh
          · subst hh
            injection hv2.symm.trans hq with hvv
            subst hvv
            exact le_of_not_lt hlt0
          · exact hbound p hh vs2 hv2
        · right
          refine ⟨(idx, name) :: pre, p, post, vs2, by rw [hsplit]; rfl, hq2,
            hstep.trans heq, hlt, ?_, hpost⟩
          intro q hqm vs3 hv3
          rcases List.mem_cons.mp hqm with hh | hh
          · subst hh
            injection hv3.symm.trans hq with hvv
            subst hvv
            exact lt_of_le_of_lt (le_of_not_lt hlt0) hlt
          · exact hpre q hh vs3 hv3

theorem snd_mem_of_mem_enum {l : List String} {q : Nat × String} (h : q ∈ l.enum) :
    q.2 ∈ l := by
  obtain ⟨j, hj, hget⟩ := List.getElem_of_mem h
  have hjl : j < l.length := by
    have := l.enum_length
    omega
  rw [List.getElem_enum] at hget
  rw [← hget]
  exact List.getElem_mem hjl

theorem enum_split_fst {l : List String} {pre post : List (Nat × String)} {p : Nat × String}
    (h : l.enum = pre ++ p :: post) :
    p.1 = pre.length ∧ (∀ q ∈ pre, q.1 < p.1) ∧ (∀ q ∈ post, p.1 < q.1) := by
  have hcat : (pre ++ p :: post).length = l.enum.length := by rw [h]
  have hcatlen : (pre ++ p :: post).length = pre.length + post.length + 1 := by
    rw [List.length_append, List.length_cons]
    omega
  have hlen : l.enum.length = pre.length + post.length + 1 := by omega
  have hL : l.enum.length = l.length := List.enum_length
  have hcons : (p :: post).length = post.length + 1 := rfl
  have hp1 : p.1 = pre.length := by
    have h1 : l.enum[pre.length] = (pre.length, l[pre.length]) :=
      List.getElem_enum l pre.length (by omega)
    have h2 : l.enum[pre.length] = (pre ++ p :: post)[pre.length] :=
      List.getElem_of_eq h (by omega)
    have h3 : (pre ++ p :: post)[pre.length] = (p :: post)[pre.length - pre.length] :=
      List.getElem_append_right (le_refl pre.length)
    have h4 : (p :: post)[pre.length - pre.length] = p := by
      simp
    have h5 := (h1.symm.trans h2).trans (h3.trans h4)
    rw [← h5]
  refine ⟨hp1, ?_, ?_⟩
  · intro q hq
    obtain ⟨j, hj, hgq⟩ := List.getElem_of_mem hq
    have h1 : l.enum[j] = (j, l[j]) := List.getElem_enum l j (by omega)
    have h2 : l.enum[j] = (pre ++ p :: post)[j] := List.getElem_of_eq h (by omega)
    have h3 : (pre ++ p :: post)[j] = pre[j] := List.getElem_append_left hj
    have hqj : q = (j, l[j]) := by
      rw [← hgq, ← h3, ← h2, h1]
    have hq1 : q.1 = j := by rw [hqj]
    omega
  · intro q hq
    obtain ⟨j, hj, hgq⟩ := List.getElem_of_mem hq
    have h1 : l.enum[pre.length + 1 + j] = (pre.length + 1 + j, l[pre.length + 1 + j]) :=
      List.getElem_enum l (pre.length + 1 + j) (by omega)
    have h2 : l.enum[pre.length + 1 + j] = (pre ++ p :: post)[pre.length + 1 + j] :=
      List.getElem_of_eq h (by omega)
    have h3 : (pre ++ p :: post)[pre.length + 1 + j] =
        (p :: post)[pre.length + 1 + j - pre.length] :=
      List.getElem_append_right (by omega)
    have hidx : pre.length + 1 + j - pre.length = j + 1 := by omega
    have h4 : (p :: post)[pre.length + 1 + j - pre.length] = post[j] := by
      simp only [hidx]
      simp
    have hqj : q = (pre.length + 1 + j, l[pre.length + 1 + j]) := by
      rw [← hgq, ← h4, ← h3, ← h2, h1]
    have hq1 : q.1 = pre.length + 1 + j := by rw [hqj]
    omega

/-- C3 (amended): the chosen key column is a qualified column (nonempty,
non-duplicate sample) of maximal cumulative score — 10 for EACH contained
keyword plus 5 for an all-pkish sample — with the earliest column winning
ties; `none` is returned exactly when no column qualifies. Stated for tables
without an empty-string header (the source conflates a winning column named
"" with the no-winner case). -/
theorem guess_highest_score (tbl : Table) (cr0 : Nat) (hne : ¬ "" ∈ tbl.Headers) :
    (GuessPrimaryKeyColumn tbl cr0 = none →
      ∀ q ∈ tbl.Headers.enum, colQualifies tbl q.1 (effCheckRows cr0) = none) ∧
    (∀ name, GuessPrimaryKeyColumn tbl cr0 = some name →
      ∃ p ∈ tbl.Headers.enum, ∃ vs, p.2 = name ∧
        colQualifies tbl p.1 (effCheckRows cr0) = some vs ∧
        (∀ q ∈ tbl.Headers.enum, ∀ vs2,
          colQualifies tbl q.1 (effCheckRows cr0) = some vs2 →
          colScore q.2 vs2 ≤ colScore name vs) ∧
        (∀ q ∈ tbl.Headers.enum, q.1 < p.1 → ∀ vs2,
          colQualifies tbl q.1 (effCheckRows cr0) = some vs2 →
          colScore q.2 vs2 < colScore name vs)) := by
  by_cases hH : tbl.Headers = []
  · constructor
    · intro _ q hq
      rw [hH] at hq
      cases hq
    · intro name hname
      rw [GuessPrimaryKeyColumn, if_pos hH] at hname
      cases hname
  · have hred : GuessPrimaryKeyColumn tbl cr0 =
        (if (guessGo tbl (effCheckRows cr0) tbl.Headers.enum "" (-1)).1 = "" then none
         else some (guessGo tbl (effCheckRows cr0) tbl.Headers.enum "" (-1)).1) := by
      rw [GuessPrimaryKeyColumn, if_neg hH]
    rcases guessGo_spec tbl (effCheckRows cr0) tbl.Headers.enum "" (-1) with
      ⟨heq, hbound⟩ | ⟨pre, p, post, vs, hsplit, hq, heq, _, hpre, hpost⟩
    · constructor
      · intro _ q hqm
        rcases hcq : colQualifies tbl q.1 (effCheckRows cr0) with _ | vs
        · rfl
        · have hle := hbound q hqm vs hcq
          have h0 : (0 : Int) ≤ (colScore q.2 vs : Int) := Int.ofNat_nonneg _
          omega
      · intro name hname
        rw [hred, heq] at hname
        simp at hname
    · have hsfst := enum_split_fst hsplit
      have hpmem : p ∈ tbl.Headers.enum := by
        rw [hsplit]
        exact List.mem_append_right _ (List.mem_cons_self _ _)
      have hp2 : p.2 ∈ tbl.Headers := snd_mem_of_mem_enum hpmem
      have hp2ne : ¬ p.2 = "" := fun hh => hne (hh ▸ hp2)
      have hguess : GuessPrimaryKeyColumn tbl cr0 = some p.2 := by
        rw [hred, heq, if_neg hp2ne]
      constructor
      · intro hnone
        rw [hguess] at hnone
        cases hnone
      · intro name hname
        rw [hguess] at hname
        have hname2 : p.2 = name := by
          injection hname
        refine ⟨p, hpmem, vs, hname2, hq, ?_, ?_⟩
        · intro q hqm vs2 hq2
          rw [← hname2]
          rw [hsplit] at hqm
          rcases List.mem_append.mp hqm with hqpre | hqrest
          · have := hpre q hqpre vs2 hq2
            exact_mod_cast le_of_lt this
          · rcases List.mem_cons.mp hqrest with hqp | hqpost
            · subst hqp
              injection hq2.symm.trans hq with hvv
              subst hvv
              exact le_refl _
            · have := hpost q hqpost vs2 hq2
              exact_mod_cast this
        · intro q hqm hqlt vs2 hq2
          rw [← hname2]
          rw [hsplit] at hqm
          rcases List.mem_append.mp hqm with hqpre | hqrest
          · have := hpre q hqpre vs2 hq2
            exact_mod_cast this
          · rcases List.mem_cons.mp hqrest with hqp | hqpost
            · subst hqp
              omega
            · have := hsfst.2.2 q hqpost
              omega

/-- C3 counterexample to the claim as stated: under the claim's "+10 if the
header contains any keyword" scoring both columns of `cexTable` score 15 and
the earliest ("id") must win, but the code adds 10 per contained keyword
("资产编号" contains both "编号" and "资产编号", scoring 25) and picks the
second column. -/
theorem guess_scoring_cex :
    claimGuess cexTable 5 = some "id" ∧
    GuessPrimaryKeyColumn cexTable 5 = some "资产编号" ∧
    ¬ GuessPrimaryKeyColumn cexTable 5 = claimGuess cexTable 5 := by
  refine ⟨by decide, by decide, by decide⟩

theorem guess_highest_score_witness :
    ¬ ("" ∈ cexTable.Headers) ∧
    (∀ name, GuessPrimaryKeyColumn cexTable 5 = some name →
      ∃ p ∈ cexTable.Headers.enum, ∃ vs, p.2 = name ∧
        colQualifies cexTable p.1 (effCheckRows 5) = some vs ∧
        (∀ q ∈ cexTable.Headers.enum, ∀ vs2,
          colQualifies cexTable q.1 (effCheckRows 5) = some vs2 →
          colScore q.2 vs2 ≤ colScore name vs) ∧
        (∀ q ∈ cexTable.Headers.enum, q.1 < p.1 → ∀ vs2,
          colQualifies cexTable q.1 (effCheckRows 5) = some vs2 →
          colScore q.2 vs2 < colScore name vs)) :=
  ⟨by decide, (guess_highest_score cexTable 5 (by decide)).2⟩

end GY
